import Mathlib

/-!
# Verification of the YFCC confidence-histogram subsystem

Shallow embedding of the confidence-histogram cache and threshold-query
engine of `src/starlett_app_with_api.py`, over the detection store
(`bb_table`) and image index (`yfcc_index`) whose schemas are declared in
`src/yfcc_yolo_to_postgres.py`.

Modelling conventions:
* SQL `REAL` / Python `float` values are modelled as exact rationals `ℚ`;
  floating-point representation error is outside the model.
* `bb_table.confidence_score` is declared `REAL NOT NULL`
  (yfcc_yolo_to_postgres.py, schema creation), so a detection always
  carries a confidence and the app's defensive
  `WHERE confidence_score IS NOT NULL` clauses are identities; the
  embedding gives `Detection.confidence` type `ℚ` accordingly.
* The two aggregate tables are modelled as lists of rows, exactly the
  rows the rebuild's `INSERT ... GROUP BY` statements produce (one row
  per non-empty group).  The `updated_at` columns are omitted: no claim
  below concerns timestamps.
* Python's `round` (banker's rounding, ties to even) is modelled on ℚ;
  Python's `int(...)` and `float(...)` literal parsing are modelled on
  decimal digit strings (the exotic extras of the builtins - underscores
  between digits, unicode digits, `inf`/`nan` - are out of model).
-/

/-- One row of `bb_table` (the Detection Store).  Columns not used by the
histogram subsystem (`bounding_box_number`, bbox geometry) are omitted. -/
structure Detection where
  image_file_id : String
  label : String
  confidence : ℚ
deriving DecidableEq, Repr

/-- One row of `yfcc_index` (the image index); `ts` is the indexing
timestamp used for recency ordering. -/
structure IndexRow where
  image_file_id : String
  path : String
  ts : ℤ
deriving DecidableEq, Repr

/-- One row of `yfcc_label_conf_hist`. -/
structure LabelHistRow where
  label : String
  conf_bin : ℤ
  box_count : ℕ
deriving DecidableEq, Repr

/-- One row of `yfcc_images_maxbin_hist`. -/
structure ImageHistRow where
  max_bin : ℤ
  image_count : ℕ
deriving DecidableEq, Repr

/-- The fixed 80-entry label vocabulary `LABELS` of
`starlett_app_with_api.py` lines 76-85. -/
def LABELS : List String :=
  ["person","bicycle","car","motorcycle","airplane","bus","train","truck","boat",
   "traffic_light","fire_hydrant","stop_sign","parking_meter","bench","bird","cat",
   "dog","horse","sheep","cow","elephant","bear","zebra","giraffe","backpack",
   "umbrella","handbag","tie","suitcase","frisbee","skis","snowboard","sports_ball",
   "kite","baseball_bat","baseball_glove","skateboard","surfboard","tennis_racket",
   "bottle","wine_glass","cup","fork","knife","spoon","bowl","banana","apple",
   "sandwich","orange","broccoli","carrot","hot_dog","pizza","donut","cake","chair",
   "couch","potted_plant","bed","dining_table","toilet","tv","laptop","mouse","remote",
   "keyboard","cell_phone","microwave","oven","toaster","sink","refrigerator","book",
   "clock","vase","scissors","teddy_bear","hair_drier","toothbrush"]

/-! ## Confidence binning -/

/-- Python's `round` on ℚ to an integer: nearest integer, ties to even
(banker's rounding), the semantics of the builtin `round(x)` used by
`conf_to_bin`. -/
def pyRound (q : ℚ) : ℤ :=
  let f := ⌊q⌋
  let r := q - f
  if r < 1/2 then f
  else if 1/2 < r then f + 1
  else if f % 2 = 0 then f else f + 1

/-- Python's `round(c, 2)` on ℚ: round to two decimal places. -/
def pyRound2 (c : ℚ) : ℚ := (pyRound (c * 100) : ℚ) / 100

/-- `conf_to_bin` (starlett_app_with_api.py lines 96-99):
`c = max(0.0, min(1.0, round(float(c), 2))); return int(round(c * 100))`. -/
def conf_to_bin (c : ℚ) : ℤ :=
  pyRound (max 0 (min 1 (pyRound2 c)) * 100)

/-- The build-side bin of the rebuild SQL:
`GREATEST(0, LEAST(100, FLOOR(x * 100.0 + 0.000001)))`
(starlett_app_with_api.py lines 151-177). -/
def bin_floor (c : ℚ) : ℤ :=
  max 0 (min 100 ⌊c * 100 + 1/1000000⌋)

/-- The plain floor bin `FLOOR(confidence_score * 100)::int` computed by
the `conf_hist` endpoint (starlett_app_with_api.py line 770); it is the
glossary notion of "the confidence bin" of a detection. -/
def conf_hist_bin (c : ℚ) : ℤ := ⌊c * 100⌋

/-! ## Histogram Builder (`rebuild_histograms`, lines 133-187)

The two `INSERT ... SELECT ... GROUP BY` statements are modelled by
listing each non-empty group (deduplicated group keys) with its row
count. -/

/-- The `(label, conf_bin)` group key of a `bb_table` row, as computed by
the first rebuild INSERT. -/
def label_bin_key (d : Detection) : String × ℤ := (d.label, bin_floor d.confidence)

/-- Fresh contents of `yfcc_label_conf_hist` produced by
`rebuild_histograms`: one row per distinct `(label, conf_bin)` group,
whose `box_count` is the number of detections in the group. -/
def rebuild_label_hist (store : List Detection) : List LabelHistRow :=
  (store.map label_bin_key).dedup.map
    (fun p => ⟨p.1, p.2, (store.map label_bin_key).countP (fun q => decide (q = p))⟩)

/-- The distinct `image_file_id`s grouped over by the `maxbin` CTE of the
second rebuild INSERT. -/
def image_ids (store : List Detection) : List String :=
  (store.map (·.image_file_id)).dedup

/-- SQL `MAX` over a non-empty list of rationals. -/
def qmax : List ℚ → ℚ
  | [] => 0
  | c :: cs => cs.foldl max c

/-- `MAX(confidence_score)` over one image's detections (the `maxbin`
CTE groups `bb_table` by `image_file_id`). -/
def image_max_conf (store : List Detection) (img : String) : ℚ :=
  qmax ((store.filter (fun d => d.image_file_id == img)).map (·.confidence))

/-- The `max_bin` of one image in the `maxbin` CTE. -/
def image_max_bin (store : List Detection) (img : String) : ℤ :=
  bin_floor (image_max_conf store img)

/-- Fresh contents of `yfcc_images_maxbin_hist` produced by
`rebuild_histograms`: one row per distinct `max_bin` value, counting the
images whose `max_bin` equals it. -/
def rebuild_image_hist (store : List Detection) : List ImageHistRow :=
  ((image_ids store).map (image_max_bin store)).dedup.map
    (fun b => ⟨b, ((image_ids store).map (image_max_bin store)).countP
      (fun q => decide (q = b))⟩)

/-! ## The rebuild transaction (`rebuild_histograms` + `recalc_freqs`)

`rebuild_histograms` wraps BEGIN, two TRUNCATEs, two INSERTs and COMMIT
in one transaction; on any failure it issues ROLLBACK and re-raises.
Each of the six statements may fail (I/O error, constraint violation);
the fault oracle `fail i` says whether statement `i` fails.  Uncommitted
working state is discarded on rollback, so a failing run leaves the
committed database untouched. -/

/-- The pair of aggregate tables (the committed database state). -/
structure AggDB where
  label_hist : List LabelHistRow
  image_hist : List ImageHistRow
deriving DecidableEq, Repr

/-- `rebuild_histograms` (lines 133-187) as a transition on the committed
state: returns the new committed state and whether the rebuild succeeded
(`false` = an exception was raised to the caller after ROLLBACK).
Statement order as in the source: BEGIN; TRUNCATE yfcc_label_conf_hist;
TRUNCATE yfcc_images_maxbin_hist; INSERT label hist; INSERT image hist;
COMMIT. -/
def rebuild_histograms (db : AggDB) (store : List Detection)
    (fail : Fin 6 → Bool) : AggDB × Bool :=
  if fail 0 then (db, false) else
  if fail 1 then (db, false) else
  let w1 : AggDB := { db with label_hist := [] }
  if fail 2 then (db, false) else
  let w2 : AggDB := { w1 with image_hist := [] }
  if fail 3 then (db, false) else
  let w3 : AggDB := { w2 with label_hist := rebuild_label_hist store }
  if fail 4 then (db, false) else
  let w4 : AggDB := { w3 with image_hist := rebuild_image_hist store }
  if fail 5 then (db, false) else
  (w4, true)

/-- `recalc_freqs` (lines 607-613): catches a rebuild exception and turns
it into an HTTP 500 `"recalc failed: ..."` plain-text response; success
is a 200 `"ok (hist rebuilt)"`.  Returns (new committed state, HTTP
status, body). -/
def recalc_freqs (db : AggDB) (store : List Detection)
    (fail : Fin 6 → Bool) : AggDB × ℕ × String :=
  match rebuild_histograms db store fail with
  | (db2, true) => (db2, 200, "ok (hist rebuilt)")
  | (db2, false) => (db2, 500, "recalc failed")

/-! ## Threshold Query Engine (read path, lines 189-243) -/

/-- `SELECT COALESCE(SUM(box_count),0) ... WHERE label = l AND conf_bin >= tb`
over an arbitrary `yfcc_label_conf_hist` state. -/
def lch_sum_ge (table : List LabelHistRow) (l : String) (tb : ℤ) : ℕ :=
  ((table.filter (fun r => r.label == l && decide (tb ≤ r.conf_bin))).map
    (·.box_count)).sum

/-- Sum of `box_count` over all bins of one label (no threshold), i.e.
`SUM(box_count)` over every `yfcc_label_conf_hist` row of that label. -/
def lch_label_total (table : List LabelHistRow) (l : String) : ℕ :=
  ((table.filter (fun r => r.label == l)).map (·.box_count)).sum

/-- The distinct labels appearing in the result of
`SELECT label, SUM(box_count) ... WHERE conf_bin >= tb GROUP BY label`. -/
def lch_labels_ge (table : List LabelHistRow) (tb : ℤ) : List String :=
  ((table.filter (fun r => decide (tb ≤ r.conf_bin))).map (·.label)).dedup

/-- The rows `(label, summed box_count)` returned by the grouping query of
`read_label_counts_at_threshold` (lines 198-204); they include rows whose
label is outside `LABELS`. -/
def label_rows (table : List LabelHistRow) (tb : ℤ) : List (String × ℕ) :=
  (lch_labels_ge table tb).map (fun l => (l, lch_sum_ge table l tb))

/-- `read_label_counts_at_threshold` (lines 189-216): the Python dict
`{lab: 0 for lab in LABELS}` updated from the query rows (only when
`lab in counts`), as an association list in `LABELS` order, paired with
`total_boxes = sum(counts.values())`. -/
def read_label_counts_at_threshold (table : List LabelHistRow) (min_conf : ℚ) :
    List (String × ℕ) × ℕ :=
  let tb := conf_to_bin min_conf
  let rows := label_rows table tb
  let counts := LABELS.map (fun lab => (lab, ((rows.lookup lab).getD 0)))
  (counts, (counts.map (·.2)).sum)

/-- `SELECT COALESCE(SUM(image_count),0) ... WHERE max_bin >= tb` over an
arbitrary `yfcc_images_maxbin_hist` state. -/
def imh_sum_ge (table : List ImageHistRow) (tb : ℤ) : ℕ :=
  ((table.filter (fun r => decide (tb ≤ r.max_bin))).map (·.image_count)).sum

/-- Sum of `image_count` over every `yfcc_images_maxbin_hist` row. -/
def imh_total (table : List ImageHistRow) : ℕ :=
  (table.map (·.image_count)).sum

/-- `read_images_with_boxes_at_threshold` (lines 218-234): sums
`image_count` over rows with `max_bin >= conf_to_bin min_conf`. -/
def read_images_with_boxes_at_threshold (table : List ImageHistRow)
    (min_conf : ℚ) : ℕ :=
  imh_sum_ge table (conf_to_bin min_conf)

/-- Modelled from the spec: the exact number of images having at least one
detection with confidence at or above `t` (the right-hand side of claim
C1; compared against the histogram-backed count). -/
def spec_images_with_conf_ge (store : List Detection) (t : ℚ) : ℕ :=
  (((store.filter (fun d => decide (t ≤ d.confidence))).map
    (·.image_file_id)).dedup).length

/-! ## Python string parsing helpers -/

/-- Python `str.strip()`: remove leading and trailing whitespace. -/
def pyStrip (s : String) : String :=
  ⟨((s.data.dropWhile Char.isWhitespace).reverse.dropWhile
      Char.isWhitespace).reverse⟩

/-- Digit-string check (nonempty, all ASCII digits). -/
def isDigits (l : List Char) : Bool := !l.isEmpty && l.all (·.isDigit)

/-- Value of a digit string. -/
def digitsToNat (l : List Char) : ℕ :=
  l.foldl (fun a c => 10 * a + (c.toNat - 48)) 0

/-- Leading sign of a numeric literal. -/
def parseSignChars : List Char → ℤ × List Char
  | '-' :: r => (-1, r)
  | '+' :: r => (1, r)
  | r => (1, r)

/-- Python `int(s)`: strip whitespace, optional sign, nonempty digit
string; `none` models the `ValueError` raise. -/
def py_int? (s : String) : Option ℤ :=
  let (sgn, t) := parseSignChars (pyStrip s).data
  if isDigits t then some (sgn * (digitsToNat t : ℤ)) else none

/-- Decimal parts of a Python `float(s)` literal: signed mantissa digits,
number of fraction digits, signed decimal exponent; `none` models the
`ValueError` raise. -/
def py_float_parts? (s : String) : Option (ℤ × ℕ × ℤ) :=
  let t := (pyStrip s).data
  let isE := fun c : Char => c == 'e' || c == 'E'
  let mant := t.takeWhile (fun c => !(isE c))
  let hasE := t.any isE
  let expPart := (t.dropWhile (fun c => !(isE c))).drop 1
  let (sgn, mant2) := parseSignChars mant
  let ip := mant2.takeWhile (fun c => !(c == '.'))
  let fp := (mant2.dropWhile (fun c => !(c == '.'))).drop 1
  let mantOk :=
    if mant2.any (fun c => c == '.') then
      !(fp.any (fun c => c == '.')) && ip.all (·.isDigit) &&
        fp.all (·.isDigit) && !(ip.isEmpty && fp.isEmpty)
    else isDigits mant2
  if mantOk then
    let m : ℤ := sgn * (digitsToNat (ip ++ fp) : ℤ)
    let k : ℕ := if mant2.any (fun c => c == '.') then fp.length else 0
    if hasE then
      let (esgn, ed) := parseSignChars expPart
      if isDigits ed then some (m, k, esgn * (digitsToNat ed : ℤ)) else none
    else some (m, k, 0)
  else none

/-- Python `float(s)` on ℚ (decimal literals, optional exponent). -/
def py_float? (s : String) : Option ℚ :=
  match py_float_parts? s with
  | none => none
  | some (m, k, e) =>
    some (if 0 ≤ e then (m : ℚ) * 10 ^ e.toNat / 10 ^ k
          else (m : ℚ) / (10 ^ k * 10 ^ (-e).toNat))

/-! ## Range-Filter Query Engine (`parse_conf_ranges_0_100`, lines
620-658, and `fetch_images_for_labels`, lines 679-722) -/

/-- Normalisation and conversion of one range term (lines 645-656):
clamp both bins to [0,100], swap a reversed pair, convert to
`(lo/100, (hi+1)/100)` with the exclusive upper bound clamped to 1.0. -/
def term_to_range (lo_bin0 hi_bin0 : ℤ) : ℚ × ℚ :=
  let lo_bin1 := max 0 (min 100 lo_bin0)
  let hi_bin1 := max 0 (min 100 hi_bin0)
  let lo_bin := if hi_bin1 < lo_bin1 then hi_bin1 else lo_bin1
  let hi_bin := if hi_bin1 < lo_bin1 then lo_bin1 else hi_bin1
  let lo : ℚ := (lo_bin : ℚ) / 100
  let hi : ℚ := ((hi_bin : ℚ) + 1) / 100
  (lo, if 1 < hi then 1 else hi)

/-- Integer parsing of one (stripped, nonempty) range term: either
`LO-HI` split at the first hyphen, or a single bin `N`
(lines 638-643); `.error` models the uncaught `ValueError` of `int`. -/
def parse_term_bins? (part : List Char) : Except String (ℤ × ℤ) :=
  if part.any (fun c => c == '-') then
    let lo_s : String := ⟨part.takeWhile (fun c => !(c == '-'))⟩
    let hi_s : String := ⟨(part.dropWhile (fun c => !(c == '-'))).drop 1⟩
    match py_int? lo_s, py_int? hi_s with
    | some lo, some hi => .ok (lo, hi)
    | _, _ => .error "invalid literal for int()"
  else
    match py_int? ⟨part⟩ with
    | some n => .ok (n, n)
    | none => .error "invalid literal for int()"

/-- Split a character list at every occurrence of `c` (Python
`str.split(",")` semantics: `n` separators give `n+1` parts). -/
def splitOnChar (c : Char) : List Char → List (List Char)
  | [] => [[]]
  | x :: xs =>
    if x = c then [] :: splitOnChar c xs
    else match splitOnChar c xs with
      | g :: gs => (x :: g) :: gs
      | [] => [[x]]

/-- The parsing loop of `parse_conf_ranges_0_100`: strip each part, skip
empty parts, parse the bin pair of each remaining term, stopping with the
first `ValueError`. -/
def parse_bins : List (List Char) → Except String (List (ℤ × ℤ))
  | [] => .ok []
  | p :: ps =>
    let part := (pyStrip ⟨p⟩).data
    if part.isEmpty then parse_bins ps
    else match parse_term_bins? part with
      | .error e => .error e
      | .ok r =>
        match parse_bins ps with
        | .error e => .error e
        | .ok rs => .ok (r :: rs)

/-- `parse_conf_ranges_0_100` (lines 620-658): `.ok none` is the
"no filter" result (empty input, or no nonempty terms); `.error` models
the uncaught `ValueError` escaping to the caller. -/
def parse_conf_ranges_0_100 (s : String) : Except String (Option (List (ℚ × ℚ))) :=
  if s.isEmpty then .ok none
  else match parse_bins (splitOnChar ',' s.data) with
    | .error e => .error e
    | .ok bins =>
      .ok (if bins.isEmpty then none
           else some (bins.map (fun p => term_to_range p.1 p.2)))

/-- The per-detection confidence comparison of `fetch_images_for_labels`
(lines 686-692): `confidence_score >= lo AND confidence_score < hi`,
OR-ed over the ranges. -/
def conf_in_ranges (ranges : List (ℚ × ℚ)) (c : ℚ) : Bool :=
  ranges.any (fun r => decide (r.1 ≤ c) && decide (c < r.2))

/-- The WHERE predicate of the label query of `fetch_images_for_labels`:
`b.label = ANY(labels)` plus the optional confidence filter (an empty
range list means no confidence clause - Python falsiness of `None`/`[]`). -/
def det_matches (labels : List String) (ranges : List (ℚ × ℚ))
    (d : Detection) : Bool :=
  labels.contains d.label && (ranges.isEmpty || conf_in_ranges ranges d.confidence)

/-- The joined `bb_table` rows of one `yfcc_index` group in
`fetch_images_for_labels` (JOIN on `image_file_id`, WHERE as above). -/
def image_group (store : List Detection) (labels : List String)
    (ranges : List (ℚ × ℚ)) (y : IndexRow) : List Detection :=
  store.filter (fun d => d.image_file_id == y.image_file_id &&
    det_matches labels ranges d)

/-- Recency order `ORDER BY ts DESC` on index rows. -/
def ts_desc (a b : IndexRow) : Prop := b.ts ≤ a.ts

instance : DecidableRel ts_desc := fun a b => Int.decLe b.ts a.ts

/-- `MAX_LIMIT` (line 618). -/
def MAX_LIMIT : ℤ := 500

/-- `fetch_images_for_labels` (lines 679-722).  With labels: one group
per index row having at least one joined detection, kept when
`COUNT(DISTINCT label)` equals `len(set(labels))`; ordered by recency,
then OFFSET/LIMIT, projected to `(image_file_id, path)`.  Without
labels: the most recent index rows. -/
def fetch_images_for_labels (idx : List IndexRow) (store : List Detection)
    (labels : List String) (limit offset : ℕ) (ranges : List (ℚ × ℚ)) :
    List (String × String) :=
  if labels.isEmpty then
    ((((idx.insertionSort ts_desc).drop offset).take limit).map
      (fun y => (y.image_file_id, y.path)))
  else
    let groups := idx.filter (fun y =>
      !(image_group store labels ranges y).isEmpty &&
      ((image_group store labels ranges y).map (·.label)).dedup.length ==
        labels.dedup.length)
    ((((groups.insertionSort ts_desc).drop offset).take limit).map
      (fun y => (y.image_file_id, y.path)))

/-! ## API handlers (`images_api`, lines 726-758; `freqs_api`,
lines 578-605) -/

/-- Outcome of one `images_api` request: a 200 JSON payload, a 400
validation rejection, or an exception escaping the handler. -/
inductive ImagesApiResult where
  | ok (labels : List String) (limit offset : ℤ) (conf : String)
      (images : List (String × String)) : ImagesApiResult
  | badRequest (error : String) : ImagesApiResult
  | unhandled (exc : String) : ImagesApiResult
deriving DecidableEq, Repr

/-- `images_api` (lines 726-758): strips and drops empty label params,
validates `limit` and `offset` (400 on `ValueError`), clamps them, parses
the `conf` spec (a `ValueError` here is NOT caught and escapes), then
queries. -/
def images_api (idx : List IndexRow) (store : List Detection)
    (label_params : List String)
    (limit_param offset_param conf_param : Option String) : ImagesApiResult :=
  let labels := (label_params.map pyStrip).filter (fun l => !l.isEmpty)
  match py_int? (limit_param.getD "50") with
  | none => .badRequest "limit must be an int"
  | some limit0 =>
    match py_int? (offset_param.getD "0") with
    | none => .badRequest "offset must be an int"
    | some offset0 =>
      let limit := max 1 (min MAX_LIMIT limit0)
      let offset := max 0 offset0
      let conf_str := pyStrip (conf_param.getD "")
      match parse_conf_ranges_0_100 conf_str with
      | .error e => .unhandled e
      | .ok ranges =>
        .ok labels limit offset conf_str
          (fetch_images_for_labels idx store labels limit.toNat offset.toNat
            (ranges.getD []))

/-- The JSON payload (plus status) of one `freqs_api` response. -/
structure FreqsResponse where
  status : ℕ
  min_conf : ℚ
  label_counts : List (String × ℕ)
  total_boxes : ℕ
  images_with_boxes : ℕ
  fractions : List (String × ℚ)
deriving DecidableEq, Repr

/-- `freqs_api` (lines 578-605): a malformed `min_conf` is silently
replaced by the default 0.4 (`except ValueError`), the value is clamped,
and the histogram-backed counts are returned with per-label fractions
(0 when `total_boxes` is 0); the status is always 200. -/
def freqs_api (ltable : List LabelHistRow) (itable : List ImageHistRow)
    (min_conf_param : Option String) : FreqsResponse :=
  let mc0 : ℚ := match py_float? (min_conf_param.getD "0.4") with
    | some v => v
    | none => 4/10
  let mc := max 0 (min 1 (pyRound2 mc0))
  let lc := read_label_counts_at_threshold ltable mc
  { status := 200,
    min_conf := mc,
    label_counts := lc.1,
    total_boxes := lc.2,
    images_with_boxes := read_images_with_boxes_at_threshold itable mc,
    fractions := lc.1.map
      (fun p => (p.1, if lc.2 = 0 then 0 else (p.2 : ℚ) / (lc.2 : ℚ))) }

instance {ε α : Type} [DecidableEq ε] [DecidableEq α] : DecidableEq (Except ε α) := fun a b =>
  match a, b with
  | .error x, .error y =>
    if h : x = y then isTrue (by rw [h])
    else isFalse (fun hh => h (Except.error.inj hh))
  | .ok x, .ok y =>
    if h : x = y then isTrue (by rw [h])
    else isFalse (fun hh => h (Except.ok.inj hh))
  | .error _, .ok _ => isFalse (fun hh => Except.noConfusion hh)
  | .ok _, .error _ => isFalse (fun hh => Except.noConfusion hh)

/-! ## Helper lemmas: Python rounding -/

lemma pyRound_bounds (q : ℚ) : ⌊q⌋ ≤ pyRound q ∧ pyRound q ≤ ⌊q⌋ + 1 := by
  simp only [pyRound]
  split_ifs <;> omega

lemma pyRound_eq_low {q : ℚ} {n : ℤ} (h1 : (n:ℚ) ≤ q) (h2 : q < (n:ℚ) + 1/2) :
    pyRound q = n := by
  have hf : ⌊q⌋ = n := Int.floor_eq_iff.mpr ⟨h1, by push_cast; linarith⟩
  simp only [pyRound, hf]
  rw [if_pos (by push_cast; linarith)]

lemma pyRound_intCast (n : ℤ) : pyRound (n:ℚ) = n := by
  simp only [pyRound, Int.floor_intCast]
  rw [if_pos (by norm_num)]

lemma pyRound_eq_high {q : ℚ} {n : ℤ} (h1 : (n:ℚ) - 1/2 < q) (h2 : q ≤ (n:ℚ)) :
    pyRound q = n := by
  rcases eq_or_lt_of_le h2 with he | hlt
  · rw [he]; exact pyRound_intCast n
  · have hf : ⌊q⌋ = n - 1 :=
      Int.floor_eq_iff.mpr ⟨by push_cast; linarith, by push_cast; linarith⟩
    simp only [pyRound, hf]
    rw [if_neg (by push_cast; linarith), if_pos (by push_cast; linarith)]
    omega

lemma pyRound_mono {a b : ℚ} (h : a ≤ b) : pyRound a ≤ pyRound b := by
  have hf : ⌊a⌋ ≤ ⌊b⌋ := Int.floor_le_floor h
  rcases eq_or_lt_of_le hf with he | hlt
  · simp only [pyRound, ← he]
    have hab : a - (⌊a⌋:ℚ) ≤ b - (⌊a⌋:ℚ) := by linarith
    split_ifs <;> first | omega | (exfalso; linarith)
  · have ha := pyRound_bounds a
    have hb := pyRound_bounds b
    omega

/-! ## Helper lemmas: binning -/

lemma conf_to_bin_eval {c : ℚ} {m : ℤ} (h : pyRound (c * 100) = m)
    (h0 : 0 ≤ m) (h1 : m ≤ 100) : conf_to_bin c = m := by
  have hm0 : (0:ℚ) ≤ (m:ℚ)/100 := by
    apply div_nonneg _ (by norm_num)
    exact_mod_cast h0
  have hm1 : (m:ℚ)/100 ≤ 1 := by
    rw [div_le_one (by norm_num)]
    exact_mod_cast h1
  unfold conf_to_bin pyRound2
  rw [h, min_eq_right hm1, max_eq_right hm0,
    div_mul_cancel₀ _ (by norm_num : (100:ℚ) ≠ 0)]
  exact pyRound_intCast m

lemma conf_to_bin_of_cent (k : ℤ) (hk0 : 0 ≤ k) (hk1 : k ≤ 100) :
    conf_to_bin ((k:ℚ)/100) = k := by
  apply conf_to_bin_eval _ hk0 hk1
  rw [div_mul_cancel₀ _ (by norm_num : (100:ℚ) ≠ 0)]
  exact pyRound_intCast k

lemma conf_to_bin_mono {a b : ℚ} (h : a ≤ b) : conf_to_bin a ≤ conf_to_bin b := by
  unfold conf_to_bin
  apply pyRound_mono
  have h2 : pyRound2 a ≤ pyRound2 b := by
    unfold pyRound2
    have := pyRound_mono (mul_le_mul_of_nonneg_right h (by norm_num : (0:ℚ) ≤ 100))
    have hc : ((pyRound (a * 100)):ℚ) ≤ ((pyRound (b * 100)):ℚ) := by exact_mod_cast this
    linarith
  have h3 : max 0 (min 1 (pyRound2 a)) ≤ max 0 (min 1 (pyRound2 b)) :=
    max_le_max le_rfl (min_le_min le_rfl h2)
  exact mul_le_mul_of_nonneg_right h3 (by norm_num)

lemma bin_floor_nonneg (c : ℚ) : 0 ≤ bin_floor c := by
  unfold bin_floor; omega

lemma bin_floor_le_100 (c : ℚ) : bin_floor c ≤ 100 := by
  unfold bin_floor; omega

/-! ## Helper lemmas: lists, folds, lookups -/

lemma foldl_max_mem : ∀ (cs : List ℚ) (c : ℚ), cs.foldl max c ∈ c :: cs
  | [], c => by simp
  | x :: xs, c => by
    have h := foldl_max_mem xs (max c x)
    rcases List.mem_cons.mp h with h1 | h1
    · rcases max_choice c x with hm | hm
      · rw [List.foldl_cons, hm]
        rw [hm] at h1
        simp [h1]
      · rw [List.foldl_cons, hm]
        rw [hm] at h1
        simp [h1]
    · rw [List.foldl_cons]
      exact List.mem_cons_of_mem _ (List.mem_cons_of_mem _ h1)

lemma le_foldl_max : ∀ (cs : List ℚ) (c x : ℚ), x ∈ c :: cs → x ≤ cs.foldl max c := by
  intro cs
  induction cs with
  | nil => intro c x h; simp at h; simp [h]
  | cons y ys ih =>
    intro c x h
    have hh : max c y ≤ ys.foldl max (max c y) :=
      ih (max c y) (max c y) (List.mem_cons_self _ _)
    rcases List.mem_cons.mp h with h1 | h1
    · simpa [h1] using le_trans (le_max_left c y) hh
    · rcases List.mem_cons.mp h1 with h2 | h2
      · simpa [h2] using le_trans (le_max_right c y) hh
      · exact ih (max c y) x (List.mem_cons_of_mem _ h2)

lemma qmax_mem {l : List ℚ} (h : l ≠ []) : qmax l ∈ l := by
  cases l with
  | nil => exact absurd rfl h
  | cons c cs => exact foldl_max_mem cs c

lemma le_qmax {l : List ℚ} {x : ℚ} (h : x ∈ l) : x ≤ qmax l := by
  cases l with
  | nil => simp at h
  | cons c cs => exact le_foldl_max cs c x h

lemma lookup_map_pair {g : String → ℕ} :
    ∀ (L : List String) (a : String), a ∈ L →
      (L.map (fun l => (l, g l))).lookup a = some (g a) := by
  intro L
  induction L with
  | nil => intro a h; simp at h
  | cons x xs ih =>
    intro a h
    by_cases hax : a = x
    · subst hax
      simp [List.lookup]
    · have hm : a ∈ xs := by
        rcases List.mem_cons.mp h with h1 | h1
        · exact absurd h1 hax
        · exact h1
      have hbeq : (a == x) = false := beq_eq_false_iff_ne.mpr hax
      simp [List.lookup, hbeq, ih a hm]

lemma lookup_map_pair_none {g : String → ℕ} :
    ∀ (L : List String) (a : String), a ∉ L →
      (L.map (fun l => (l, g l))).lookup a = none := by
  intro L
  induction L with
  | nil => intro a _; simp [List.lookup]
  | cons x xs ih =>
    intro a h
    have hax : a ≠ x := fun he => h (he ▸ List.mem_cons_self x xs)
    have hbeq : (a == x) = false := beq_eq_false_iff_ne.mpr hax
    simp [List.lookup, hbeq, ih a (fun hm => h (List.mem_cons_of_mem _ hm))]

lemma sublist_sum_le {l1 l2 : List ℕ} (h : l1.Sublist l2) : l1.sum ≤ l2.sum :=
  List.Sublist.sum_le_sum h (fun a _ => Nat.zero_le a)

/-! ## Helper lemmas: the rebuilt tables sum to direct detection counts -/

lemma sum_indicator_nodup {κ : Type} [DecidableEq κ] (a : κ) :
    ∀ (L : List κ), L.Nodup →
      (L.map (fun k => if a = k then 1 else 0)).sum = if a ∈ L then 1 else 0 := by
  intro L
  induction L with
  | nil => intro _; simp
  | cons b L ih =>
    intro hnd
    have hb : b ∉ L := (List.nodup_cons.mp hnd).1
    have hL := ih (List.nodup_cons.mp hnd).2
    by_cases hab : a = b
    · subst hab
      simp [hL, hb]
    · simp [hab, hL, List.mem_cons]

lemma sum_groups {κ : Type} [DecidableEq κ] (ks : List κ) (p : κ → Bool) :
    ((ks.dedup.filter p).map (fun k => ks.countP (fun x => decide (x = k)))).sum
      = ks.countP p := by
  induction ks with
  | nil => simp
  | cons a as ih =>
    simp only [List.countP_cons, List.sum_map_add]
    have part1 :
        (((a :: as).dedup.filter p).map
          (fun k => as.countP (fun x => decide (x = k)))).sum = as.countP p := by
      by_cases ha : a ∈ as
      · rw [List.dedup_cons_of_mem ha]
        exact ih
      · rw [List.dedup_cons_of_not_mem ha]
        by_cases hp : p a
        · rw [List.filter_cons_of_pos hp, List.map_cons, List.sum_cons]
          have hz : as.countP (fun x => decide (x = a)) = 0 := by
            rw [List.countP_eq_zero]
            intro x hx
            simp only [decide_eq_true_eq]
            intro he
            exact ha (he ▸ hx)
          rw [hz, zero_add]
          exact ih
        · rw [List.filter_cons_of_neg (by simpa using hp)]
          exact ih
    have part2 :
        (((a :: as).dedup.filter p).map
          (fun k => if decide (a = k) = true then 1 else 0)).sum
          = if p a = true then 1 else 0 := by
      have hnd : ((a :: as).dedup.filter p).Nodup :=
        List.Nodup.filter _ (List.nodup_dedup _)
      have := sum_indicator_nodup a ((a :: as).dedup.filter p) hnd
      simp only [decide_eq_true_eq]
      rw [this]
      by_cases hp : p a
      · rw [if_pos hp]
        rw [if_pos (List.mem_filter.mpr
          ⟨List.mem_dedup.mpr (List.mem_cons_self a as), hp⟩)]
      · rw [if_neg hp]
        rw [if_neg (fun hm => hp (List.mem_filter.mp hm).2)]
    rw [part1, part2]

lemma lch_sum_ge_rebuild (store : List Detection) (l : String) (tb : ℤ) :
    lch_sum_ge (rebuild_label_hist store) l tb
      = store.countP (fun d => d.label == l && decide (tb ≤ bin_floor d.confidence)) := by
  unfold lch_sum_ge rebuild_label_hist
  rw [List.filter_map, List.map_map]
  rw [show ((fun r : LabelHistRow => r.label == l && decide (tb ≤ r.conf_bin)) ∘
      (fun p : String × ℤ =>
        (⟨p.1, p.2, (store.map label_bin_key).countP (fun q => decide (q = p))⟩ :
          LabelHistRow)))
      = fun p : String × ℤ => p.1 == l && decide (tb ≤ p.2) from rfl]
  rw [show ((fun r : LabelHistRow => r.box_count) ∘
      (fun p : String × ℤ =>
        (⟨p.1, p.2, (store.map label_bin_key).countP (fun q => decide (q = p))⟩ :
          LabelHistRow)))
      = fun p : String × ℤ =>
          (store.map label_bin_key).countP (fun q => decide (q = p)) from rfl]
  rw [sum_groups, List.countP_map]
  rfl

lemma lch_label_total_rebuild (store : List Detection) (l : String) :
    lch_label_total (rebuild_label_hist store) l
      = store.countP (fun d => d.label == l) := by
  unfold lch_label_total rebuild_label_hist
  rw [List.filter_map, List.map_map]
  rw [show ((fun r : LabelHistRow => r.label == l) ∘
      (fun p : String × ℤ =>
        (⟨p.1, p.2, (store.map label_bin_key).countP (fun q => decide (q = p))⟩ :
          LabelHistRow)))
      = fun p : String × ℤ => p.1 == l from rfl]
  rw [show ((fun r : LabelHistRow => r.box_count) ∘
      (fun p : String × ℤ =>
        (⟨p.1, p.2, (store.map label_bin_key).countP (fun q => decide (q = p))⟩ :
          LabelHistRow)))
      = fun p : String × ℤ =>
          (store.map label_bin_key).countP (fun q => decide (q = p)) from rfl]
  rw [sum_groups, List.countP_map]
  rfl

lemma imh_sum_ge_rebuild (store : List Detection) (tb : ℤ) :
    imh_sum_ge (rebuild_image_hist store) tb
      = (image_ids store).countP (fun img => decide (tb ≤ image_max_bin store img)) := by
  unfold imh_sum_ge rebuild_image_hist
  rw [List.filter_map, List.map_map]
  rw [show ((fun r : ImageHistRow => decide (tb ≤ r.max_bin)) ∘
      (fun b : ℤ =>
        (⟨b, ((image_ids store).map (image_max_bin store)).countP
          (fun q => decide (q = b))⟩ : ImageHistRow)))
      = fun b : ℤ => decide (tb ≤ b) from rfl]
  rw [show ((fun r : ImageHistRow => r.image_count) ∘
      (fun b : ℤ =>
        (⟨b, ((image_ids store).map (image_max_bin store)).countP
          (fun q => decide (q = b))⟩ : ImageHistRow)))
      = fun b : ℤ =>
          ((image_ids store).map (image_max_bin store)).countP
            (fun q => decide (q = b)) from rfl]
  rw [sum_groups, List.countP_map]
  rfl

lemma imh_total_rebuild (store : List Detection) :
    imh_total (rebuild_image_hist store) = (image_ids store).length := by
  unfold imh_total rebuild_image_hist
  rw [List.map_map]
  rw [show ((fun r : ImageHistRow => r.image_count) ∘
      (fun b : ℤ =>
        (⟨b, ((image_ids store).map (image_max_bin store)).countP
          (fun q => decide (q = b))⟩ : ImageHistRow)))
      = fun b : ℤ =>
          ((image_ids store).map (image_max_bin store)).countP
            (fun q => decide (q = b)) from rfl]
  rw [show ((image_ids store).map (image_max_bin store)).dedup
      = (((image_ids store).map (image_max_bin store)).dedup.filter
          (fun _ => true)) from (List.filter_true _).symm]
  rw [sum_groups, List.countP_true, List.length_map]

lemma lch_sum_ge_eq_zero {table : List LabelHistRow} {l : String} {tb : ℤ}
    (h : l ∉ lch_labels_ge table tb) : lch_sum_ge table l tb = 0 := by
  unfold lch_sum_ge
  have he : table.filter (fun r => r.label == l && decide (tb ≤ r.conf_bin)) = [] := by
    rw [List.filter_eq_nil_iff]
    intro r hr hc
    apply h
    unfold lch_labels_ge
    rw [List.mem_dedup]
    simp only [Bool.and_eq_true, beq_iff_eq, decide_eq_true_eq] at hc
    apply List.mem_map.mpr
    exact ⟨r, List.mem_filter.mpr ⟨hr, by simp [hc.2]⟩, hc.1⟩
  rw [he]
  rfl

lemma label_rows_lookup_getD (table : List LabelHistRow) (tb : ℤ) (l : String) :
    ((label_rows table tb).lookup l).getD 0 = lch_sum_ge table l tb := by
  by_cases h : l ∈ lch_labels_ge table tb
  · rw [label_rows, lookup_map_pair _ _ h]
    rfl
  · rw [label_rows, lookup_map_pair_none _ _ h]
    exact (lch_sum_ge_eq_zero h).symm

/-! ## Claim theorems -/

/-- C2: if any step of the rebuild fails, the whole transaction rolls
back - both aggregate tables are left exactly as they were before the
call - and the failure is surfaced to the caller as an explicit HTTP 500
rebuild-failed response, never silently swallowed. -/
theorem C2_rebuild_rollback (db : AggDB) (store : List Detection)
    (fail : Fin 6 → Bool) (h : ∃ i, fail i = true) :
    (recalc_freqs db store fail).1 = db ∧
    (recalc_freqs db store fail).2.1 = 500 ∧
    (recalc_freqs db store fail).2.2 = "recalc failed" := by
  obtain ⟨i, hi⟩ := h
  by_cases h0 : fail 0
  · simp [recalc_freqs, rebuild_histograms, h0]
  · by_cases h1 : fail 1
    · simp [recalc_freqs, rebuild_histograms, h0, h1]
    · by_cases h2 : fail 2
      · simp [recalc_freqs, rebuild_histograms, h0, h1, h2]
      · by_cases h3 : fail 3
        · simp [recalc_freqs, rebuild_histograms, h0, h1, h2, h3]
        · by_cases h4 : fail 4
          · simp [recalc_freqs, rebuild_histograms, h0, h1, h2, h3, h4]
          · by_cases h5 : fail 5
            · simp [recalc_freqs, rebuild_histograms, h0, h1, h2, h3, h4, h5]
            · exfalso
              fin_cases i <;> simp_all

theorem C2_witness :
    (recalc_freqs ⟨[⟨"cat", 50, 3⟩], [⟨90, 2⟩]⟩ [] (fun i => i.val == 3)).1
        = (⟨[⟨"cat", 50, 3⟩], [⟨90, 2⟩]⟩ : AggDB) ∧
    (recalc_freqs ⟨[⟨"cat", 50, 3⟩], [⟨90, 2⟩]⟩ [] (fun i => i.val == 3)).2.1 = 500 ∧
    (recalc_freqs ⟨[⟨"cat", 50, 3⟩], [⟨90, 2⟩]⟩ [] (fun i => i.val == 3)).2.2
        = "recalc failed" :=
  C2_rebuild_rollback _ _ _ ⟨3, by decide⟩

/-- C3: after every rebuild, for each label the sum of `box_count` over
all bins of the label histogram equals that label's total detection count
in the store at build time; equivalently, `labelCountsAtOrAbove(0.0)`
reports the full per-label detection count for every vocabulary label. -/
theorem C3_label_hist_completeness (store : List Detection) (l : String) :
    lch_label_total (rebuild_label_hist store) l
        = (store.filter (fun d => d.label == l)).length ∧
    (l ∈ LABELS →
      ((read_label_counts_at_threshold (rebuild_label_hist store) 0).1.lookup l)
        = some ((store.filter (fun d => d.label == l)).length)) := by
  have hbase : store.countP (fun d => d.label == l)
      = (store.filter (fun d => d.label == l)).length :=
    List.countP_eq_length_filter _ _
  constructor
  · rw [lch_label_total_rebuild, hbase]
  · intro hl
    have htb : conf_to_bin 0 = 0 := by
      have h0 : pyRound ((0:ℚ) * 100) = 0 := by
        rw [zero_mul]
        simpa using pyRound_intCast 0
      exact conf_to_bin_eval h0 le_rfl (by norm_num)
    rw [show (read_label_counts_at_threshold (rebuild_label_hist store) 0).1
        = LABELS.map (fun lab => (lab,
          (((label_rows (rebuild_label_hist store) (conf_to_bin 0)).lookup
            lab).getD 0))) from rfl]
    rw [lookup_map_pair _ _ hl]
    rw [label_rows_lookup_getD, htb, lch_sum_ge_rebuild]
    rw [← hbase]
    congr 1
    apply List.countP_congr
    intro d _
    simp [bin_floor_nonneg d.confidence]

theorem C3_witness :
    ((read_label_counts_at_threshold
        (rebuild_label_hist [⟨"img1", "cat", 9/10⟩]) 0).1.lookup "cat")
      = some ((([⟨"img1", "cat", 9/10⟩] : List Detection)).filter
          (fun d => d.label == "cat")).length :=
  (C3_label_hist_completeness _ "cat").2 (by decide)

/-- C4: `parse_conf_ranges_0_100` maps `"40-45,50,90-100"` to
`[(0.40, 0.46), (0.50, 0.51), (0.90, 1.0)]`, maps the empty string to the
no-filter value, clamps out-of-range bins into [0,100], and swaps a
reversed pair LO-HI with LO > HI. -/
theorem C4_parse_ranges :
    parse_conf_ranges_0_100 "40-45,50,90-100"
        = .ok (some [(40/100, 46/100), (50/100, 51/100), (90/100, 1)]) ∧
    parse_conf_ranges_0_100 "" = .ok none ∧
    (∀ lo hi : ℤ, term_to_range lo hi
        = term_to_range (max 0 (min 100 lo)) (max 0 (min 100 hi))) ∧
    (∀ lo hi : ℤ, hi < lo → term_to_range lo hi = term_to_range hi lo) := by
  refine ⟨?_, by decide, ?_, ?_⟩
  · have hb : parse_bins (splitOnChar ',' ("40-45,50,90-100".data))
        = .ok [(40, 45), (50, 50), (90, 100)] := by decide
    have h1 : term_to_range 40 45 = (40/100, 46/100) := by
      simp only [term_to_range]
      norm_num
    have h2 : term_to_range 50 50 = (50/100, 51/100) := by
      simp only [term_to_range]
      norm_num
    have h3 : term_to_range 90 100 = (90/100, 1) := by
      simp only [term_to_range]
      norm_num
    unfold parse_conf_ranges_0_100
    rw [if_neg (by decide), hb]
    simp [h1, h2, h3]
  · intro lo hi
    have e1 : max 0 (min 100 (max 0 (min 100 lo))) = max 0 (min 100 lo) := by omega
    have e2 : max 0 (min 100 (max 0 (min 100 hi))) = max 0 (min 100 hi) := by omega
    simp only [term_to_range]
    rw [e1, e2]
  · intro lo hi _h
    by_cases h1 : max 0 (min 100 hi) < max 0 (min 100 lo)
    · by_cases h2 : max 0 (min 100 lo) < max 0 (min 100 hi)
      · exact absurd h2 (by omega)
      · simp only [term_to_range, if_pos h1, if_neg h2]
    · by_cases h2 : max 0 (min 100 lo) < max 0 (min 100 hi)
      · simp only [term_to_range, if_pos h2, if_neg h1]
      · have he : max 0 (min 100 lo) = max 0 (min 100 hi) := by omega
        simp only [term_to_range, if_neg h1, if_neg h2, he]

theorem C4_witness : term_to_range 5 3 = term_to_range 3 5 :=
  C4_parse_ranges.2.2.2 5 3 (by decide)

/-- C9: after every rebuild, the sum of `image_count` over all bins of
the image max-bin histogram equals the number of images in the Detection
Store having at least one detection (images with no detections appear in
no bin). -/
theorem C9_image_hist_total (store : List Detection) :
    imh_total (rebuild_image_hist store)
      = ((store.map (·.image_file_id)).dedup).length := by
  rw [imh_total_rebuild]
  rfl

/-- C10: `read_label_counts_at_threshold` always returns a mapping whose
key set is exactly the fixed 80-entry vocabulary: histogram rows with a
label outside the vocabulary are silently excluded from the counts and
from `total_boxes` (which sums vocabulary labels only), and vocabulary
labels absent from the histogram report 0. -/
theorem C10_label_counts_vocabulary (table : List LabelHistRow) (mc : ℚ) :
    ((read_label_counts_at_threshold table mc).1.map Prod.fst = LABELS) ∧
    LABELS.length = 80 ∧
    (∀ l, l ∉ LABELS →
      (read_label_counts_at_threshold table mc).1.lookup l = none) ∧
    ((read_label_counts_at_threshold table mc).2
      = (LABELS.map (fun l => lch_sum_ge table l (conf_to_bin mc))).sum) ∧
    (∀ l, l ∈ LABELS → l ∉ lch_labels_ge table (conf_to_bin mc) →
      (read_label_counts_at_threshold table mc).1.lookup l = some 0) := by
  refine ⟨?_, by decide, ?_, ?_, ?_⟩
  · rw [show (read_label_counts_at_threshold table mc).1
        = LABELS.map (fun lab => (lab,
          (((label_rows table (conf_to_bin mc)).lookup lab).getD 0))) from rfl]
    rw [List.map_map]
    rw [show (Prod.fst ∘ fun lab => (lab,
        (((label_rows table (conf_to_bin mc)).lookup lab).getD 0)))
      = fun lab : String => lab from rfl]
    exact List.map_id _
  · intro l hl
    rw [show (read_label_counts_at_threshold table mc).1
        = LABELS.map (fun lab => (lab,
          (((label_rows table (conf_to_bin mc)).lookup lab).getD 0))) from rfl]
    exact lookup_map_pair_none _ _ hl
  · rw [show (read_label_counts_at_threshold table mc).2
        = ((LABELS.map (fun lab => (lab,
          (((label_rows table (conf_to_bin mc)).lookup lab).getD 0)))).map
            (·.2)).sum from rfl]
    rw [List.map_map]
    congr 1
    apply List.map_congr_left
    intro l _
    exact label_rows_lookup_getD table (conf_to_bin mc) l
  · intro l hl hnot
    rw [show (read_label_counts_at_threshold table mc).1
        = LABELS.map (fun lab => (lab,
          (((label_rows table (conf_to_bin mc)).lookup lab).getD 0))) from rfl]
    rw [lookup_map_pair _ _ hl, label_rows_lookup_getD, lch_sum_ge_eq_zero hnot]

theorem C10_witness :
    (read_label_counts_at_threshold [⟨"unicorn", 50, 7⟩] 0).1.lookup "unicorn"
      = none :=
  (C10_label_counts_vocabulary _ 0).2.2.1 "unicorn" (by decide)

lemma imh_sum_ge_anti (table : List ImageHistRow) {tb1 tb2 : ℤ} (h : tb1 ≤ tb2) :
    imh_sum_ge table tb2 ≤ imh_sum_ge table tb1 := by
  unfold imh_sum_ge
  apply sublist_sum_le
  apply List.Sublist.map
  apply List.monotone_filter_right
  intro r hr
  simp only [decide_eq_true_eq] at hr ⊢
  omega

/-- C8: the images-at-or-above-threshold query is antitone in the
threshold: for thresholds T1 < T2 and any aggregate table state, the
count at T1 is at least the count at T2. -/
theorem C8_images_threshold_antitone (table : List ImageHistRow) (t1 t2 : ℚ)
    (h : t1 < t2) :
    read_images_with_boxes_at_threshold table t2
      ≤ read_images_with_boxes_at_threshold table t1 := by
  unfold read_images_with_boxes_at_threshold
  exact imh_sum_ge_anti table (conf_to_bin_mono h.le)

theorem C8_witness :
    read_images_with_boxes_at_threshold [⟨45, 3⟩, ⟨80, 2⟩] (7/10)
      ≤ read_images_with_boxes_at_threshold [⟨45, 3⟩, ⟨80, 2⟩] (3/10) :=
  C8_images_threshold_antitone _ _ _ (by norm_num)

/-- C5: with a non-empty requested label list and no confidence ranges,
every image returned by `fetch_images_for_labels` contains every
requested label among its detections (set containment via the distinct
matching-label count); in particular over the two-image example store
only `img2` is returned for `["cat", "dog"]`. -/
theorem C5_filter_images_label_containment
    (idx : List IndexRow) (store : List Detection) (labels : List String)
    (limit offset : ℕ) (hne : labels ≠ []) :
    (∀ r ∈ fetch_images_for_labels idx store labels limit offset [],
      ∀ lab ∈ labels, ∃ d ∈ store, d.image_file_id = r.1 ∧ d.label = lab) ∧
    fetch_images_for_labels [⟨"img1", "p1", 1⟩, ⟨"img2", "p2", 2⟩]
      [⟨"img1", "cat", 9/10⟩, ⟨"img2", "cat", 3/10⟩, ⟨"img2", "dog", 95/100⟩]
      ["cat", "dog"] 10 0 [] = [("img2", "p2")] := by
  constructor
  · intro r hr lab hlab
    rw [fetch_images_for_labels] at hr
    rw [if_neg (by simp [List.isEmpty_iff, hne])] at hr
    obtain ⟨y, hy, hyr⟩ := List.mem_map.mp hr
    have hy2 : y ∈ idx.filter (fun y =>
        !(image_group store labels [] y).isEmpty &&
        ((image_group store labels [] y).map (·.label)).dedup.length ==
          labels.dedup.length) :=
      (List.mem_insertionSort ts_desc).mp
        (List.drop_subset _ _ (List.take_subset _ _ hy))
    obtain ⟨hyidx, hpred⟩ := List.mem_filter.mp hy2
    simp only [Bool.and_eq_true] at hpred
    have hlen : ((image_group store labels [] y).map (·.label)).dedup.length
        = labels.dedup.length := beq_iff_eq.mp hpred.2
    -- the matched distinct labels are among the requested ones
    have hsub : ∀ x ∈ ((image_group store labels [] y).map (·.label)).dedup,
        x ∈ labels.dedup := by
      intro x hx
      rw [List.mem_dedup] at hx ⊢
      obtain ⟨d, hd, hdx⟩ := List.mem_map.mp hx
      obtain ⟨_, hdm⟩ := List.mem_filter.mp hd
      simp only [Bool.and_eq_true, det_matches] at hdm
      have hmem : d.label ∈ labels := by
        have := hdm.2.1
        simpa using this
      exact hdx ▸ hmem
    -- equal cardinality forces set equality
    have hM : (((image_group store labels [] y).map (·.label)).dedup).Nodup :=
      List.nodup_dedup _
    have hR : (labels.dedup).Nodup := List.nodup_dedup _
    have hsubF : (((image_group store labels [] y).map (·.label)).dedup).toFinset
        ⊆ (labels.dedup).toFinset := by
      intro x hx
      rw [List.mem_toFinset] at hx ⊢
      exact hsub x hx
    have hcard : (labels.dedup).toFinset.card ≤
        (((image_group store labels [] y).map (·.label)).dedup).toFinset.card := by
      rw [List.toFinset_card_of_nodup hM, List.toFinset_card_of_nodup hR, hlen]
    have heqF : (((image_group store labels [] y).map (·.label)).dedup).toFinset
        = (labels.dedup).toFinset :=
      Finset.eq_of_subset_of_card_le hsubF hcard
    have hlabM : lab ∈ ((image_group store labels [] y).map (·.label)).dedup := by
      have h1 : lab ∈ (labels.dedup).toFinset := by
        rw [List.mem_toFinset, List.mem_dedup]
        exact hlab
      rw [← heqF, List.mem_toFinset] at h1
      exact h1
    rw [List.mem_dedup] at hlabM
    obtain ⟨d, hd, hdl⟩ := List.mem_map.mp hlabM
    obtain ⟨hds, hdm⟩ := List.mem_filter.mp hd
    simp only [Bool.and_eq_true] at hdm
    refine ⟨d, hds, ?_, hdl⟩
    have : d.image_file_id = y.image_file_id := beq_iff_eq.mp hdm.1
    rw [this, ← hyr]
  · decide

theorem C5_witness :
    fetch_images_for_labels [⟨"img1", "p1", 1⟩, ⟨"img2", "p2", 2⟩]
      [⟨"img1", "cat", 9/10⟩, ⟨"img2", "cat", 3/10⟩, ⟨"img2", "dog", 95/100⟩]
      ["cat", "dog"] 10 0 [] = [("img2", "p2")] :=
  (C5_filter_images_label_containment [] [] ["cat", "dog"] 10 0 (by decide)).2

/-- C6 counterexample: the claim includes a detection with confidence
exactly 1.0 against a term clamping to bin 100, but the comparison
`confidence_score < 1.0` used by the image fetch is strict, so that
detection does NOT fall inside the half-open interval: `parseRanges`'
`"90-100"` term yields `(0.90, 1.0)` and a confidence of exactly 1.0
(bin 100, inside [90,100]) fails the range test. -/
theorem C6_counterexample :
    conf_hist_bin 1 = 100 ∧
    term_to_range 90 100 = (90/100, 1) ∧
    conf_in_ranges [term_to_range 90 100] 1 = false := by
  have h1 : conf_hist_bin 1 = 100 := by
    unfold conf_hist_bin
    norm_num
  have h2 : term_to_range 90 100 = (90/100, 1) := by
    simp only [term_to_range]
    norm_num
  refine ⟨h1, h2, ?_⟩
  rw [h2]
  unfold conf_in_ranges
  simp only [List.any_cons, List.any_nil, Bool.or_false]
  have hlt : ¬((1:ℚ) < (90/100, (1:ℚ)).2) := by norm_num
  simp [hlt]

/-- C6 (amended): parsed confidence ranges are bin-inclusive on both
ends for every detection whose confidence is strictly below 1.0: if the
detection's floor bin lies in the (normalised) term range [LO, HI], its
confidence falls inside the half-open interval that the image fetch
compares against.  A detection with confidence exactly 1.0 (bin 100) is
excluded by the strict `< 1.0` upper comparison - the original claim's
inclusion of that case is false (see the counterexample). -/
theorem C6_ranges_bin_inclusive (lo hi : ℤ) (c : ℚ) (h0 : 0 ≤ lo)
    (h1 : lo ≤ hi) (h2 : hi ≤ 100) (hc1 : c < 1)
    (hblo : lo ≤ conf_hist_bin c) (hbhi : conf_hist_bin c ≤ hi) :
    conf_in_ranges [term_to_range lo hi] c = true := by
  unfold conf_hist_bin at hblo hbhi
  have hlow : (lo:ℚ)/100 ≤ c := by
    rw [div_le_iff (by norm_num : (0:ℚ) < 100)]
    have h := Int.le_floor.mp hblo
    exact_mod_cast h
  have hupb : c * 100 < (hi:ℚ) + 1 := by
    have h := Int.lt_floor_add_one (c * 100)
    have h' : ((⌊c * 100⌋ : ℤ) : ℚ) ≤ (hi : ℚ) := by exact_mod_cast hbhi
    linarith
  have e1 : max 0 (min 100 lo) = lo := by omega
  have e2 : max 0 (min 100 hi) = hi := by omega
  unfold conf_in_ranges
  simp only [List.any_cons, List.any_nil, Bool.or_false]
  simp only [term_to_range, e1, e2]
  have hnosw : ¬ hi < lo := by omega
  simp only [if_neg hnosw]
  by_cases hcl : (1:ℚ) < ((hi:ℚ) + 1) / 100
  · rw [if_pos hcl]
    simp only [Bool.and_eq_true, decide_eq_true_eq]
    exact ⟨hlow, hc1⟩
  · rw [if_neg hcl]
    simp only [Bool.and_eq_true, decide_eq_true_eq]
    refine ⟨hlow, ?_⟩
    rw [lt_div_iff (by norm_num : (0:ℚ) < 100)]
    linarith

theorem C6_witness : conf_in_ranges [term_to_range 40 45] (42/100) = true :=
  C6_ranges_bin_inclusive 40 45 (42/100) (by norm_num) (by norm_num)
    (by norm_num) (by norm_num)
    (by unfold conf_hist_bin; norm_num) (by unfold conf_hist_bin; norm_num)

/-! ## Claim C7: input validation on the read-path API -/

lemma py_float_04 : py_float? "0.4" = some (4/10) := by
  have hp : py_float_parts? "0.4" = some (4, 1, 0) := by decide
  unfold py_float?
  rw [hp]
  norm_num

/-- C7 counterexample: a malformed `min_conf` is NOT rejected - `freqs_api`
answers 200 and silently behaves exactly as with the default threshold
0.4 - and a malformed `conf` range spec raises an uncaught `ValueError`
that escapes the `images_api` handler, so the original claim is false. -/
theorem C7_counterexample :
    (freqs_api [] [] (some "abc")).status = 200 ∧
    freqs_api [] [] (some "abc") = freqs_api [] [] (some "0.4") ∧
    images_api [] [] [] none none (some "abc")
      = .unhandled "invalid literal for int()" := by
  refine ⟨rfl, ?_, by decide⟩
  have habc : py_float? "abc" = none := by decide
  unfold freqs_api
  rw [show (Option.getD (some "abc") "0.4") = "abc" from rfl,
    show (Option.getD (some "0.4") "0.4") = "0.4" from rfl, habc, py_float_04]

/-- C7 (amended): a malformed `limit` or `offset` is rejected with an
explanatory 400 response; a malformed `min_conf`, however, is silently
replaced by the default 0.4 (the request succeeds), and a malformed
`conf` range spec raises an unhandled exception escaping the handler -
the original claim holds only for `limit`/`offset`. -/
theorem C7_input_validation (idx : List IndexRow) (store : List Detection)
    (lp : List String) (ltab : List LabelHistRow) (itab : List ImageHistRow) :
    (∀ s, py_int? s = none → ∀ op cp,
      images_api idx store lp (some s) op cp
        = .badRequest "limit must be an int") ∧
    (∀ s t n, py_int? s = some n → py_int? t = none → ∀ cp,
      images_api idx store lp (some s) (some t) cp
        = .badRequest "offset must be an int") ∧
    (∀ s e ls os ln om, parse_conf_ranges_0_100 (pyStrip s) = .error e →
      py_int? (ls.getD "50") = some ln → py_int? (os.getD "0") = some om →
      images_api idx store lp ls os (some s) = .unhandled e) ∧
    (∀ s, py_float? s = none →
      freqs_api ltab itab (some s) = freqs_api ltab itab none) := by
  refine ⟨?_, ?_, ?_, ?_⟩
  · intro s hs op cp
    unfold images_api
    rw [show (Option.getD (some s) "50") = s from rfl, hs]
  · intro s t n hs ht cp
    unfold images_api
    rw [show (Option.getD (some s) "50") = s from rfl, hs,
      show (Option.getD (some t) "0") = t from rfl, ht]
  · intro s e ls os ln om he hls hos
    unfold images_api
    rw [hls, hos]
    simp only [Option.getD_some, he]
  · intro s hs
    unfold freqs_api
    rw [show (Option.getD (some s) "0.4") = s from rfl,
      show (Option.getD (none : Option String) "0.4") = "0.4" from rfl,
      hs, py_float_04]

theorem C7_witness :
    images_api [] [] [] (some "xx") none none
      = .badRequest "limit must be an int" :=
  (C7_input_validation [] [] [] [] []).1 "xx" (by decide) none none

/-! ## Claim C1: exactness of the images-at-threshold count -/

lemma image_ids_mem {store : List Detection} {img : String} :
    img ∈ image_ids store ↔ ∃ d ∈ store, d.image_file_id = img := by
  unfold image_ids
  rw [List.mem_dedup, List.mem_map]

lemma image_max_bin_ge_iff (store : List Detection) (img : String) (k : ℤ)
    (hconf : ∀ d ∈ store, 0 ≤ d.confidence ∧ d.confidence ≤ 1 ∧
      ⌊d.confidence * 100 + 1/1000000⌋ = ⌊d.confidence * 100⌋)
    (himg : ∃ d ∈ store, d.image_file_id = img) :
    (k ≤ image_max_bin store img ↔
      ∃ d ∈ store, d.image_file_id = img ∧ (k:ℚ)/100 ≤ d.confidence) := by
  obtain ⟨d0, hd0s, hd0i⟩ := himg
  set ds := store.filter (fun d => d.image_file_id == img) with hds
  set confs := ds.map (·.confidence) with hconfs
  have hd0ds : d0 ∈ ds := List.mem_filter.mpr ⟨hd0s, by simp [hd0i]⟩
  have hne : confs ≠ [] :=
    List.ne_nil_of_mem (List.mem_map_of_mem _ hd0ds)
  obtain ⟨dm, hdm, hdmc⟩ := List.mem_map.mp (qmax_mem hne)
  have hdm_store : dm ∈ store := (List.mem_filter.mp hdm).1
  have hdm_img : dm.image_file_id = img :=
    beq_iff_eq.mp (List.mem_filter.mp hdm).2
  obtain ⟨hm0, hm1, hmeps⟩ := hconf dm hdm_store
  have hfl0 : (0:ℤ) ≤ ⌊dm.confidence * 100⌋ :=
    Int.le_floor.mpr (by push_cast; exact mul_nonneg hm0 (by norm_num))
  have hfl1 : ⌊dm.confidence * 100⌋ ≤ 100 := by
    have h100 : dm.confidence * 100 ≤ ((100:ℤ):ℚ) := by push_cast; linarith
    calc ⌊dm.confidence * 100⌋ ≤ ⌊((100:ℤ):ℚ)⌋ := Int.floor_le_floor h100
      _ = 100 := Int.floor_intCast 100
  have himb : image_max_bin store img = ⌊qmax confs * 100⌋ := by
    unfold image_max_bin image_max_conf bin_floor
    rw [← hds, ← hconfs, ← hdmc, hmeps]
    omega
  rw [himb]
  constructor
  · intro hk
    have hk' : k ≤ ⌊dm.confidence * 100⌋ := by
      rw [hdmc]
      exact hk
    refine ⟨dm, hdm_store, hdm_img, ?_⟩
    rw [div_le_iff (by norm_num : (0:ℚ) < 100)]
    exact Int.le_floor.mp hk'
  · rintro ⟨d, hd_s, hd_img, hd_conf⟩
    have hd_ds : d ∈ ds := List.mem_filter.mpr ⟨hd_s, by simp [hd_img]⟩
    have hle : d.confidence ≤ qmax confs := le_qmax (List.mem_map_of_mem _ hd_ds)
    apply Int.le_floor.mpr
    rw [div_le_iff (by norm_num : (0:ℚ) < 100)] at hd_conf
    have := mul_le_mul_of_nonneg_right hle (by norm_num : (0:ℚ) ≤ 100)
    linarith

/-- C1 (amended): the histogram-backed images-at-threshold query is an
exact count of the images having at least one detection with confidence
at or above the threshold, provided the threshold is one of the UI's
two-decimal values `k/100` (`min_conf` is produced by a 0.01-step
slider) and every stored confidence lies in [0,1] and is not within the
SQL epsilon 10^-6 below a bin boundary (so the `FLOOR(c*100 + 1e-6)`
build bin equals `FLOOR(c*100)`).  For other thresholds or
epsilon-straddling confidences the count is only bin-approximate - see
the counterexample. -/
theorem C1_images_at_threshold_exact (store : List Detection) (k : ℤ)
    (hk0 : 0 ≤ k) (hk1 : k ≤ 100)
    (hconf : ∀ d ∈ store, 0 ≤ d.confidence ∧ d.confidence ≤ 1 ∧
      ⌊d.confidence * 100 + 1/1000000⌋ = ⌊d.confidence * 100⌋) :
    read_images_with_boxes_at_threshold (rebuild_image_hist store) ((k:ℚ)/100)
      = spec_images_with_conf_ge store ((k:ℚ)/100) := by
  unfold read_images_with_boxes_at_threshold
  rw [conf_to_bin_of_cent k hk0 hk1, imh_sum_ge_rebuild,
    List.countP_eq_length_filter]
  unfold spec_images_with_conf_ge
  apply List.Perm.length_eq
  apply (List.perm_ext_iff_of_nodup
    (List.Nodup.filter _ (List.nodup_dedup _)) (List.nodup_dedup _)).mpr
  intro img
  constructor
  · intro h
    obtain ⟨hids, hbin⟩ := List.mem_filter.mp h
    have himg : ∃ d ∈ store, d.image_file_id = img := image_ids_mem.mp hids
    rw [decide_eq_true_eq] at hbin
    obtain ⟨d, hds, hdi, hdc⟩ :=
      (image_max_bin_ge_iff store img k hconf himg).mp hbin
    rw [List.mem_dedup]
    exact List.mem_map.mpr
      ⟨d, List.mem_filter.mpr ⟨hds, decide_eq_true hdc⟩, hdi⟩
  · intro h
    rw [List.mem_dedup] at h
    obtain ⟨d, hd, hdi⟩ := List.mem_map.mp h
    obtain ⟨hds, hdc⟩ := List.mem_filter.mp hd
    rw [decide_eq_true_eq] at hdc
    have himg : ∃ d ∈ store, d.image_file_id = img := ⟨d, hds, hdi⟩
    exact List.mem_filter.mpr ⟨image_ids_mem.mpr himg,
      decide_eq_true
        ((image_max_bin_ge_iff store img k hconf himg).mpr ⟨d, hds, hdi, hdc⟩)⟩

/-- C1 counterexample: for `minConfidence = 0.456` over a store holding a
single detection at confidence 0.459 the claim fails: the detection has
confidence at or above the threshold (exact count 1), but the query
threshold bin is `round(0.456*100) = 46` while the build bin is
`floor(0.459*100 + 1e-6) = 45`, so the histogram-backed query returns 0:
the count is not exact for every `minConfidence`. -/
theorem C1_counterexample :
    read_images_with_boxes_at_threshold
        (rebuild_image_hist [⟨"imgA", "cat", 459/1000⟩]) (456/1000) = 0 ∧
    spec_images_with_conf_ge [⟨"imgA", "cat", 459/1000⟩] (456/1000) = 1 := by
  have htb : conf_to_bin (456/1000) = 46 := by
    apply conf_to_bin_eval _ (by norm_num) (by norm_num)
    exact pyRound_eq_high (by norm_num) (by norm_num)
  constructor
  · unfold read_images_with_boxes_at_threshold
    rw [htb, imh_sum_ge_rebuild]
    have hmb : image_max_bin [⟨"imgA", "cat", 459/1000⟩] "imgA" = 45 := by
      unfold image_max_bin image_max_conf
      rw [List.filter_cons_of_pos (by decide), List.filter_nil]
      show bin_floor (qmax [459/1000]) = 45
      unfold qmax bin_floor
      norm_num
    rw [show image_ids [⟨"imgA", "cat", 459/1000⟩] = ["imgA"] from by decide]
    simp [hmb]
  · unfold spec_images_with_conf_ge
    have hfil : ([⟨"imgA", "cat", 459/1000⟩] : List Detection).filter
        (fun d => decide ((456:ℚ)/1000 ≤ d.confidence))
        = [⟨"imgA", "cat", 459/1000⟩] := by
      have hpos : ((456:ℚ)/1000 ≤ 459/1000) := by norm_num
      simp [hpos]
    rw [hfil]
    decide

theorem C1_witness :
    read_images_with_boxes_at_threshold
        (rebuild_image_hist [⟨"img1", "cat", 9/10⟩, ⟨"img2", "cat", 3/10⟩,
          ⟨"img2", "dog", 95/100⟩]) (((40:ℤ):ℚ)/100)
      = spec_images_with_conf_ge [⟨"img1", "cat", 9/10⟩, ⟨"img2", "cat", 3/10⟩,
          ⟨"img2", "dog", 95/100⟩] (((40:ℤ):ℚ)/100) :=
  C1_images_at_threshold_exact _ 40 (by norm_num) (by norm_num) (by
    intro d hd
    simp only [List.mem_cons, List.not_mem_nil, or_false] at hd
    rcases hd with h | h | h <;> subst h <;> refine ⟨by norm_num, by norm_num, ?_⟩ <;> norm_num)
